import Mathlib

/-!
Shallow embedding of `LazyInitializationProvider`
(`packages/hardhat-core/src/internal/core/providers/lazy-initialization.ts`)
together with a model of the Node.js `EventEmitter` operations the class
delegates to.

Modelling notes.

* Callbacks are opaque and identified by a natural number; invoking a callback
  has no effect other than being recorded in a ghost log (`firedLog`).
* A listener list slot (`Entry`) models what Node stores in `_events[type]`:
  either the user callback itself (persistent registration) or a `_onceWrap`
  wrapper.  `eid` is the identity of the stored function object, `once` says
  whether the slot is a wrapper, and `tgt` records which emitter the wrapper
  removes itself from when it fires (its `target`): `false` is the proxy's
  internal `_emitter` buffer, `true` is the provider.  Wrapper `fired` flags
  live in the shared set `firedIds`, mirroring the fact that the wrapper's
  state object is shared by every list the wrapper function is stored in.
* Node's `removeListener(type, f)` scans the list backwards and removes the
  last slot `x` with `x === f` or `x.listener === f`; for a user callback this
  is modelled as matching on the `callback` field, and for a raw wrapper (as
  passed during migration) as matching on `eid`.  A slot list's key is deleted
  from `_events` when its list becomes empty.  The `newListener` and
  `removeListener` meta-events of Node emitters are not modelled.
* `_initProvider` is an async method whose only suspension point is
  `await this._providerFactory()`.  It is split into `initCheck` (the
  synchronous prefix up to and including starting the factory) and
  `initResolveOk` and `initResolveErr` (the continuation once the factory
  promise settles).  A trace (`List Act`) interleaves these phases with the
  synchronous EventEmitter surface, which models the single-threaded
  cooperative scheduling of a JS runtime.  `pendingInits` counts factory
  promises that are started but not yet settled, `factoryCalls` counts factory
  invocations, and each successful construction produces a fresh resource
  (empty listener table, unset max-listeners) tagged with a serial `rid`.
* `request` and `send` both reduce to `initCheck` plus a resolution step and a
  forwarded call (counted in `remoteCalls`); `sendAsyncRun` additionally
  models the two `.then` branches of `sendAsync`, returning `callbackErr e`
  when the supplied callback is invoked with error `e` and no response.
-/

namespace LazyInit

abbrev EvName := String

/-- Model of one slot of a Node `EventEmitter` listener list: `eid` is the
identity of the stored function object (the `_onceWrap` wrapper for a
fire-once registration), `callback` the identity of the user callback,
`once` whether the slot is a fire-once wrapper, and `tgt` the emitter the
wrapper removes itself from when it fires (`true` = provider, `false` =
the internal buffer emitter). -/
structure Entry where
  eid : Nat
  callback : Nat
  once : Bool
  tgt : Bool
deriving DecidableEq

/-- Remove the last element satisfying `p`, as Node's `removeListener`
backward scan does; the list is unchanged when nothing matches. -/
def eraseLastP (p : Entry → Bool) : List Entry → List Entry
  | [] => []
  | x :: xs => if xs.any p then x :: eraseLastP p xs
               else if p x then xs else x :: xs

/-- Listener list of event `e` in an `_events` table (empty when absent). -/
def getL : List (EvName × List Entry) → EvName → List Entry
  | [], _ => []
  | q :: rest, e => if q.1 == e then q.2 else getL rest e

/-- Add a slot for event `e`: prepend or append to an existing list, or create
the key at the end of the table (JS object key insertion order). -/
def addTo : List (EvName × List Entry) → EvName → Entry → Bool → List (EvName × List Entry)
  | [], e, ent, _ => [(e, [ent])]
  | q :: rest, e, ent, front =>
      if q.1 == e then (q.1, if front then ent :: q.2 else q.2 ++ [ent]) :: rest
      else q :: addTo rest e ent front

/-- Rewrite the list of event `e` with `f`, deleting the key when the result
is empty, as Node does after removing the last listener of an event. -/
def removeFrom : List (EvName × List Entry) → EvName → (List Entry → List Entry) → List (EvName × List Entry)
  | [], _, _ => []
  | q :: rest, e, f =>
      if q.1 == e then
        let l := f q.2
        if l.isEmpty then rest else (q.1, l) :: rest
      else q :: removeFrom rest e f

/-- State of one Node `EventEmitter`: the `_events` table (keys in insertion
order) and the `_maxListeners` field (`none` = never set, default 10). -/
structure Emitter where
  events : List (EvName × List Entry)
  maxL : Option Nat
deriving DecidableEq

def Emitter.getMaxListeners (m : Emitter) : Nat := m.maxL.getD 10

def Emitter.rawListeners (m : Emitter) (e : EvName) : List Entry := getL m.events e

/-- Effective listener listing: Node's `listeners()` unwraps once-wrappers via
their `.listener` field, so it returns the user callbacks. -/
def Emitter.listeners (m : Emitter) (e : EvName) : List Nat :=
  (getL m.events e).map Entry.callback

def Emitter.eventNames (m : Emitter) : List EvName := m.events.map Prod.fst

def Emitter.listenerCount (m : Emitter) (e : EvName) : Nat := (getL m.events e).length

def Emitter.addL (m : Emitter) (e : EvName) (ent : Entry) (front : Bool) : Emitter :=
  { m with events := addTo m.events e ent front }

/-- Node `removeListener`: drop the last slot matching `p` for event `e`. -/
def Emitter.removeLastBy (m : Emitter) (e : EvName) (p : Entry → Bool) : Emitter :=
  { m with events := removeFrom m.events e (eraseLastP p) }

def Emitter.removeAllL (m : Emitter) (e : Option EvName) : Emitter :=
  match e with
  | some e => { m with events := m.events.filter (fun q => !(q.1 == e)) }
  | none => { m with events := [] }

def Emitter.setMax (m : Emitter) (n : Nat) : Emitter := { m with maxL := some n }

/-- The provider produced by a successful factory invocation: a serial
identity `rid` plus its own emitter state. -/
structure Resource where
  rid : Nat
  em : Emitter
deriving DecidableEq

/-- Ghost record of one listener invocation: identity of the stored slot,
whether it was a fire-once wrapper, the event name and the user callback. -/
structure FireRec where
  eid : Nat
  once : Bool
  ev : EvName
  callback : Nat
deriving DecidableEq

/-- Whole-system state of one `LazyInitializationProvider` plus the ghost
instrumentation needed to state the claims. -/
structure Sys where
  buffer : Emitter
  provider : Option Resource
  pendingInits : Nat
  factoryCalls : Nat
  constructions : Nat
  remoteCalls : Nat
  firedIds : List Nat
  firedLog : List FireRec
  nextId : Nat
deriving DecidableEq

/-- The `_getEmitter()` routing: the provider once it exists, otherwise the
internal buffer emitter. -/
def Sys.getEmitter (s : Sys) : Emitter :=
  match s.provider with
  | some r => r.em
  | none => s.buffer

/-- Write back the emitter `_getEmitter()` currently designates. -/
def Sys.setCurEm (s : Sys) (m : Emitter) : Sys :=
  match s.provider with
  | some r => { s with provider := some { r with em := m } }
  | none => { s with buffer := m }

/-- The `addListener` / `on` / `once` / `prependListener` /
`prependOnceListener` family: delegate to `_getEmitter()`, storing a fresh
slot.  A fire-once registration creates a wrapper whose removal target is the
emitter it was registered on. -/
def regListener (s : Sys) (e : EvName) (cb : Nat) (onceFlag front : Bool) : Sys :=
  let ent : Entry := ⟨s.nextId, cb, onceFlag, s.provider.isSome⟩
  { s.setCurEm ((s.getEmitter).addL e ent front) with nextId := s.nextId + 1 }

/-- A fired once-wrapper calls `target.removeListener(type, wrapFn)`: removal
by identity of the wrapper, against the emitter captured at registration
time. -/
def removeFromTarget (s : Sys) (ent : Entry) (e : EvName) : Sys :=
  if ent.tgt then
    match s.provider with
    | some r => { s with provider := some { r with em := r.em.removeLastBy e (fun x => x.eid == ent.eid) } }
    | none => s
  else { s with buffer := s.buffer.removeLastBy e (fun x => x.eid == ent.eid) }

/-- Invoke one slot during `emit`: a persistent slot just calls the callback;
a wrapper whose `fired` flag is unset marks itself fired, removes itself from
its target emitter and calls the callback; an already-fired wrapper does
nothing. -/
def fireOne (s : Sys) (e : EvName) (ent : Entry) : Sys :=
  if ent.once then
    if ent.eid ∈ s.firedIds then s
    else
      removeFromTarget
        { s with firedIds := ent.eid :: s.firedIds,
                 firedLog := s.firedLog ++ [⟨ent.eid, true, e, ent.callback⟩] }
        ent e
  else { s with firedLog := s.firedLog ++ [⟨ent.eid, false, e, ent.callback⟩] }

/-- Node `emit`: call each slot of a snapshot of the current listener list. -/
def emitStep (s : Sys) (e : EvName) : Sys :=
  ((s.getEmitter).rawListeners e).foldl (fun t ent => fireOne t e ent) s

/-- Synchronous prefix of `_initProvider` up to its only suspension point: if
`this.provider` is already set, nothing happens; otherwise the factory is
invoked (counted) and a pending factory promise is recorded.  The `Bool`
reports whether the factory was invoked. -/
def initCheck (s : Sys) : Sys × Bool :=
  match s.provider with
  | some _ => (s, false)
  | none => ({ s with factoryCalls := s.factoryCalls + 1,
                      pendingInits := s.pendingInits + 1 }, true)

/-- Continuation of `_initProvider` when the awaited factory promise rejects:
the assignment to `this.provider` never runs, so nothing changes except that
the pending promise is consumed. -/
def initResolveErr (s : Sys) : Sys :=
  if s.pendingInits = 0 then s else { s with pendingInits := s.pendingInits - 1 }

/-- Matching used by the migration loop's `removeListener(event, listener)`
call, where `listener` is a raw slot: a wrapper matches by its own identity,
a plain slot (the user callback itself) matches any slot with that callback
(Node also unwraps `.listener`). -/
def migPred (ent x : Entry) : Bool :=
  if ent.once then x.eid == ent.eid else x.callback == ent.callback

/-- Inner loop of `_initProvider`'s migration for one recorded event: for each
raw listener of the buffer (snapshot), `this.provider.on(event, listener)`
then `this._emitter.removeListener(event, listener)`. -/
def migrateEvent (pr bu : Emitter) (e : EvName) : Emitter × Emitter :=
  (bu.rawListeners e).foldl
    (fun pb ent => (pb.1.addL e ent false, pb.2.removeLastBy e (migPred ent)))
    (pr, bu)

/-- Migration body of `_initProvider` (lines 145-156): iterate over a snapshot
of the buffer's event names, move each event's raw listeners, then
`this.provider.setMaxListeners(this._emitter.getMaxListeners())`. -/
def migrate (pr bu : Emitter) : Emitter × Emitter :=
  let pb := (bu.eventNames).foldl (fun pb e => migrateEvent pb.1 pb.2 e) (pr, bu)
  (pb.1.setMax (pb.2.getMaxListeners), pb.2)

/-- Continuation of `_initProvider` when the awaited factory promise resolves:
`this.provider = result` runs unconditionally (there is no re-check of the
guard), followed by the migration of buffered listeners and the max-listeners
carryover.  The factory result is a fresh resource: empty listener table,
max-listeners never set. -/
def initResolveOk (s : Sys) : Sys :=
  if s.pendingInits = 0 then s
  else
    let pb := migrate ⟨[], none⟩ s.buffer
    { s with provider := some ⟨s.constructions + 1, pb.1⟩,
             buffer := pb.2,
             pendingInits := s.pendingInits - 1,
             constructions := s.constructions + 1 }

/-- One schedulable step of the system: the synchronous check phase of a
remote call's `_initProvider`, the settlement of a pending factory promise,
or one synchronous EventEmitter-surface operation. -/
inductive Act where
  | callStart
  | resolveOk
  | resolveErr
  | evOn (e : EvName) (cb : Nat)
  | evOnce (e : EvName) (cb : Nat)
  | evPrepend (e : EvName) (cb : Nat)
  | evPrependOnce (e : EvName) (cb : Nat)
  | evRemove (e : EvName) (cb : Nat)
  | evRemoveAll (e : Option EvName)
  | evSetMax (n : Nat)
  | evEmit (e : EvName)
deriving DecidableEq

def step (s : Sys) : Act → Sys
  | Act.callStart => (initCheck s).1
  | Act.resolveOk => initResolveOk s
  | Act.resolveErr => initResolveErr s
  | Act.evOn e cb => regListener s e cb false false
  | Act.evOnce e cb => regListener s e cb true false
  | Act.evPrepend e cb => regListener s e cb false true
  | Act.evPrependOnce e cb => regListener s e cb true true
  | Act.evRemove e cb => s.setCurEm ((s.getEmitter).removeLastBy e (fun x => x.callback == cb))
  | Act.evRemoveAll e => s.setCurEm ((s.getEmitter).removeAllL e)
  | Act.evSetMax n => s.setCurEm ((s.getEmitter).setMax n)
  | Act.evEmit e => emitStep s e

def run (s : Sys) (tr : List Act) : Sys := tr.foldl step s

/-- Freshly constructed `LazyInitializationProvider`: empty buffer emitter,
no provider, nothing pending. -/
def init : Sys := ⟨⟨[], none⟩, none, 0, 0, 0, 0, [], [], 0⟩

/-- Listener-registration operations (`addListener` and `on` coincide). -/
def IsReg : Act → Bool
  | Act.evOn _ _ | Act.evOnce _ _ | Act.evPrepend _ _ | Act.evPrependOnce _ _ => true
  | _ => false

/-- Operations of the EventEmitter surface, as opposed to the remote-call
phases. -/
def IsEvOp : Act → Bool
  | Act.callStart | Act.resolveOk | Act.resolveErr => false
  | _ => true

/-- Outcome of a `sendAsync` call as seen by the caller: the payload was
forwarded to the provider's `sendAsync`, or the supplied callback was invoked
with an error and no response. -/
inductive SAResult where
  | forwarded
  | callbackErr (e : Nat)
deriving DecidableEq

/-- `sendAsync(payload, callback)`: runs `_initProvider()` and attaches the
two `.then` branches; nothing is thrown to the caller.  `fout` is how the
factory promise settles if the factory is invoked (unused when the provider
already exists). -/
def sendAsyncRun (s : Sys) (fout : Except Nat Unit) : Sys × SAResult :=
  match s.provider with
  | some _ => ({ s with remoteCalls := s.remoteCalls + 1 }, SAResult.forwarded)
  | none =>
      let s1 := (initCheck s).1
      match fout with
      | Except.ok _ =>
          let s2 := initResolveOk s1
          ({ s2 with remoteCalls := s2.remoteCalls + 1 }, SAResult.forwarded)
      | Except.error e => (initResolveErr s1, SAResult.callbackErr e)

def providerEvents (s : Sys) : Option (List (EvName × List Entry)) :=
  s.provider.map (fun r => r.em.events)

/-- Identities of fire-once wrapper invocations in the ghost log. -/
def onceEids (log : List FireRec) : List Nat :=
  (log.filter (fun r => r.once)).map FireRec.eid

/-- Well-formed emitter table: event keys are distinct and no key holds an
empty list (Node deletes emptied keys).  Holds for every reachable state. -/
abbrev EmWF (m : Emitter) : Prop :=
  (m.events.map Prod.fst).Nodup ∧ ∀ q ∈ m.events, q.2 ≠ []

/-- Slot identities are distinct within each listener list. -/
abbrev EidNodup (m : Emitter) : Prop :=
  ∀ q ∈ m.events, (q.2.map Entry.eid).Nodup

/-- No callback occurs both as a persistent and as a fire-once registration
in the same listener list. -/
abbrev NoMixL (l : List Entry) : Prop :=
  ∀ x ∈ l, ∀ y ∈ l, x.callback = y.callback → x.once = y.once

abbrev NoMix (m : Emitter) : Prop := ∀ q ∈ m.events, NoMixL q.2

/-- Reassemble an event key in front of the untouched rest of a table,
dropping it when its list is empty. -/
def consIf (k : EvName) (cur : List Entry) (rest : List (EvName × List Entry)) :
    List (EvName × List Entry) :=
  if cur.isEmpty then rest else (k, cur) :: rest

/-! Generic fold helpers. -/

theorem foldl_inv {α β : Type} (P : α → Prop) (f : α → β → α)
    (h : ∀ a b, P a → P (f a b)) :
    ∀ (l : List β) (a : α), P a → P (l.foldl f a)
  | [], _, ha => ha
  | b :: l, a, ha => foldl_inv P f h l (f a b) (h a b ha)

theorem foldl_inv_mem {α β : Type} (P : α → Prop) (Q : β → Prop) (f : α → β → α)
    (h : ∀ a b, Q b → P a → P (f a b)) :
    ∀ (l : List β), (∀ b ∈ l, Q b) → ∀ a, P a → P (l.foldl f a)
  | [], _, _, ha => ha
  | b :: l, hq, a, ha =>
      foldl_inv_mem P Q f h l (fun x hx => hq x (List.mem_cons_of_mem b hx)) (f a b)
        (h a b (hq b (List.mem_cons_self b l)) ha)

theorem foldl_pair {α β γ : Type} (f : α → γ → α) (g : β → γ → β) :
    ∀ (l : List γ) (a : α) (b : β),
      l.foldl (fun p x => (f p.1 x, g p.2 x)) (a, b) = (l.foldl f a, l.foldl g b)
  | [], _, _ => rfl
  | x :: l, a, b => foldl_pair f g l (f a x) (g b x)

theorem run_cons (s : Sys) (a : Act) (tr : List Act) :
    run s (a :: tr) = run (step s a) tr := rfl

theorem run_append (s : Sys) (t1 t2 : List Act) :
    run s (t1 ++ t2) = run (run s t1) t2 := List.foldl_append step s t1 t2

/-! Frame facts about the EventEmitter surface. -/

theorem setCurEm_frame (s : Sys) (m : Emitter) :
    (s.setCurEm m).factoryCalls = s.factoryCalls ∧
    (s.setCurEm m).pendingInits = s.pendingInits ∧
    (s.setCurEm m).remoteCalls = s.remoteCalls ∧
    (s.setCurEm m).constructions = s.constructions ∧
    ((s.setCurEm m).provider).map Resource.rid = (s.provider).map Resource.rid ∧
    ((s.setCurEm m).provider).isSome = (s.provider).isSome := by
  cases h : s.provider <;> simp [Sys.setCurEm, h]

theorem fireOne_frame (t : Sys) (e : EvName) (ent : Entry) :
    (fireOne t e ent).factoryCalls = t.factoryCalls ∧
    (fireOne t e ent).pendingInits = t.pendingInits ∧
    (fireOne t e ent).remoteCalls = t.remoteCalls ∧
    (fireOne t e ent).constructions = t.constructions ∧
    ((fireOne t e ent).provider).map Resource.rid = (t.provider).map Resource.rid ∧
    ((fireOne t e ent).provider).isSome = (t.provider).isSome := by
  cases hp : t.provider <;>
    simp only [fireOne, removeFromTarget, hp] <;>
    split <;> try split
  all_goals first
    | exact ⟨rfl, rfl, rfl, rfl, by simp [hp], by simp [hp]⟩
    | (split <;> exact ⟨rfl, rfl, rfl, rfl, by simp [hp], by simp [hp]⟩)

/-- C5: every EventEmitter-surface operation leaves the initialization state
alone: it invokes no factory (factoryCalls, pendingInits unchanged), makes no
remote call, constructs nothing, and neither creates nor discards the
provider.  In the embedding these operations are moreover total functions, as
in the code, which never consults the initialization state except to route
through `_getEmitter`; they cannot raise. -/
theorem C5_event_ops_no_init (s : Sys) (a : Act) (h : IsEvOp a = true) :
    (step s a).factoryCalls = s.factoryCalls ∧
    (step s a).pendingInits = s.pendingInits ∧
    (step s a).remoteCalls = s.remoteCalls ∧
    (step s a).constructions = s.constructions ∧
    ((step s a).provider).isSome = (s.provider).isSome := by
  cases a
  case callStart => exact absurd h (by decide)
  case resolveOk => exact absurd h (by decide)
  case resolveErr => exact absurd h (by decide)
  case evOn e cb =>
    have hf := setCurEm_frame s ((s.getEmitter).addL e ⟨s.nextId, cb, false, s.provider.isSome⟩ false)
    exact ⟨hf.1, hf.2.1, hf.2.2.1, hf.2.2.2.1, hf.2.2.2.2.2⟩
  case evOnce e cb =>
    have hf := setCurEm_frame s ((s.getEmitter).addL e ⟨s.nextId, cb, true, s.provider.isSome⟩ false)
    exact ⟨hf.1, hf.2.1, hf.2.2.1, hf.2.2.2.1, hf.2.2.2.2.2⟩
  case evPrepend e cb =>
    have hf := setCurEm_frame s ((s.getEmitter).addL e ⟨s.nextId, cb, false, s.provider.isSome⟩ true)
    exact ⟨hf.1, hf.2.1, hf.2.2.1, hf.2.2.2.1, hf.2.2.2.2.2⟩
  case evPrependOnce e cb =>
    have hf := setCurEm_frame s ((s.getEmitter).addL e ⟨s.nextId, cb, true, s.provider.isSome⟩ true)
    exact ⟨hf.1, hf.2.1, hf.2.2.1, hf.2.2.2.1, hf.2.2.2.2.2⟩
  case evRemove e cb =>
    have hf := setCurEm_frame s ((s.getEmitter).removeLastBy e (fun x => x.callback == cb))
    exact ⟨hf.1, hf.2.1, hf.2.2.1, hf.2.2.2.1, hf.2.2.2.2.2⟩
  case evRemoveAll e =>
    have hf := setCurEm_frame s ((s.getEmitter).removeAllL e)
    exact ⟨hf.1, hf.2.1, hf.2.2.1, hf.2.2.2.1, hf.2.2.2.2.2⟩
  case evSetMax n =>
    have hf := setCurEm_frame s ((s.getEmitter).setMax n)
    exact ⟨hf.1, hf.2.1, hf.2.2.1, hf.2.2.2.1, hf.2.2.2.2.2⟩
  case evEmit e =>
    refine foldl_inv
      (fun t => t.factoryCalls = s.factoryCalls ∧ t.pendingInits = s.pendingInits ∧
        t.remoteCalls = s.remoteCalls ∧ t.constructions = s.constructions ∧
        (t.provider).isSome = (s.provider).isSome)
      (fun t ent => fireOne t e ent) ?_ _ s ⟨rfl, rfl, rfl, rfl, rfl⟩
    intro t ent hP
    have hf := fireOne_frame t e ent
    exact ⟨hf.1.trans hP.1, hf.2.1.trans hP.2.1, hf.2.2.1.trans hP.2.2.1,
      hf.2.2.2.1.trans hP.2.2.2.1, hf.2.2.2.2.2.trans hP.2.2.2.2⟩

theorem C5_event_ops_no_init_witness :
    (step init (Act.evOn "connect" 1)).factoryCalls = init.factoryCalls ∧
    (step init (Act.evOn "connect" 1)).pendingInits = init.pendingInits ∧
    (step init (Act.evOn "connect" 1)).remoteCalls = init.remoteCalls ∧
    (step init (Act.evOn "connect" 1)).constructions = init.constructions ∧
    ((step init (Act.evOn "connect" 1)).provider).isSome = (init.provider).isSome :=
  C5_event_ops_no_init init (Act.evOn "connect" 1) rfl

/-- C1: the failing schedule for single construction.  Two remote calls whose
synchronous `_initProvider` prefixes both run before either factory promise
settles each observe `this.provider === undefined` and each invoke the
factory: `factoryCalls` is 2, not 1, and two constructions are left pending.
A single call invokes it once. -/
theorem C1_factory_invoked_per_caller :
    (run init [Act.callStart]).factoryCalls = 1 ∧
    (run init [Act.callStart, Act.callStart]).factoryCalls = 2 ∧
    (run init [Act.callStart, Act.callStart]).pendingInits = 2 := by decide

/-- C6: when `sendAsync` triggers construction and the factory rejects with
`e`, the supplied callback is invoked with exactly that error and no response
(`callbackErr e`), nothing is thrown or returned as a suspension (the
function is total and returns normally), no remote call is made and no
provider exists afterwards, and the buffer is untouched; when the factory
resolves, the payload is forwarded to the provider's `sendAsync`. -/
theorem C6_sendAsync_error_callback (s : Sys) (e : Nat) (hp : s.provider = none) :
    (sendAsyncRun s (Except.error e)).2 = SAResult.callbackErr e ∧
    (sendAsyncRun s (Except.error e)).1.remoteCalls = s.remoteCalls ∧
    (sendAsyncRun s (Except.error e)).1.provider = none ∧
    (sendAsyncRun s (Except.error e)).1.buffer = s.buffer ∧
    (sendAsyncRun s (Except.ok ())).2 = SAResult.forwarded ∧
    (sendAsyncRun s (Except.ok ())).1.remoteCalls = s.remoteCalls + 1 := by
  simp [sendAsyncRun, hp, initCheck, initResolveErr, initResolveOk]

theorem C6_sendAsync_error_callback_witness :
    (sendAsyncRun init (Except.error 9)).2 = SAResult.callbackErr 9 ∧
    (sendAsyncRun init (Except.error 9)).1.remoteCalls = init.remoteCalls ∧
    (sendAsyncRun init (Except.error 9)).1.provider = none ∧
    (sendAsyncRun init (Except.error 9)).1.buffer = init.buffer ∧
    (sendAsyncRun init (Except.ok ())).2 = SAResult.forwarded ∧
    (sendAsyncRun init (Except.ok ())).1.remoteCalls = init.remoteCalls + 1 :=
  C6_sendAsync_error_callback init 9 rfl

/-! Max-listeners carryover facts about the migration. -/

theorem migrateEvent_eq (pr bu : Emitter) (e : EvName) :
    migrateEvent pr bu e =
      ((bu.rawListeners e).foldl (fun m ent => m.addL e ent false) pr,
       (bu.rawListeners e).foldl (fun m ent => m.removeLastBy e (migPred ent)) bu) := by
  unfold migrateEvent
  exact foldl_pair (fun m ent => m.addL e ent false)
    (fun m ent => m.removeLastBy e (migPred ent)) (bu.rawListeners e) pr bu

theorem foldl_addL_maxL (e : EvName) :
    ∀ (l : List Entry) (m : Emitter),
      (l.foldl (fun m ent => m.addL e ent false) m).maxL = m.maxL
  | [], _ => rfl
  | x :: l, m => foldl_addL_maxL e l (m.addL e x false)

theorem foldl_removeLastBy_maxL (e : EvName) :
    ∀ (l : List Entry) (m : Emitter),
      (l.foldl (fun m ent => m.removeLastBy e (migPred ent)) m).maxL = m.maxL
  | [], _ => rfl
  | x :: l, m => foldl_removeLastBy_maxL e l (m.removeLastBy e (migPred x))

theorem migrateEvent_maxL (pr bu : Emitter) (e : EvName) :
    (migrateEvent pr bu e).1.maxL = pr.maxL ∧ (migrateEvent pr bu e).2.maxL = bu.maxL := by
  rw [migrateEvent_eq]
  exact ⟨foldl_addL_maxL e _ pr, foldl_removeLastBy_maxL e _ bu⟩

theorem loop_maxL :
    ∀ (ks : List EvName) (pr bu : Emitter),
      ((ks.foldl (fun pb e => migrateEvent pb.1 pb.2 e) (pr, bu)).1.maxL = pr.maxL ∧
       (ks.foldl (fun pb e => migrateEvent pb.1 pb.2 e) (pr, bu)).2.maxL = bu.maxL)
  | [], _, _ => ⟨rfl, rfl⟩
  | k :: ks, pr, bu => by
      have h := migrateEvent_maxL pr bu k
      have ih := loop_maxL ks (migrateEvent pr bu k).1 (migrateEvent pr bu k).2
      simp only [List.foldl_cons]
      rw [show ((migrateEvent pr bu k).1, (migrateEvent pr bu k).2) = migrateEvent pr bu k
        from rfl] at ih
      exact ⟨ih.1.trans h.1, ih.2.trans h.2⟩

theorem migrate_maxL (pr bu : Emitter) :
    (migrate pr bu).1.maxL = some bu.getMaxListeners ∧ (migrate pr bu).2.maxL = bu.maxL := by
  have h := loop_maxL bu.eventNames pr bu
  unfold migrate
  refine ⟨?_, h.2⟩
  simp [Emitter.setMax, Emitter.getMaxListeners, h.2]

/-- Combined effect of the check phase of one remote call followed by a
successful factory resolution, starting from an uninitialized proxy. -/
theorem construct_eq (s : Sys) (hp : s.provider = none) :
    run s [Act.callStart, Act.resolveOk] =
      { s with provider := some ⟨s.constructions + 1, (migrate ⟨[], none⟩ s.buffer).1⟩,
               buffer := (migrate ⟨[], none⟩ s.buffer).2,
               factoryCalls := s.factoryCalls + 1,
               constructions := s.constructions + 1 } := by
  cases s with
  | mk bu pv pi fc cn rc fi fl ni =>
      cases hp
      simp [run, step, initCheck, initResolveOk]

/-- C7: setting a max-listeners value `n` on the proxy before construction and
then constructing makes the provider report exactly `n`: the value reaches
the resource through the single `setMaxListeners` call of the migration. -/
theorem C7_maxListeners_carryover (s : Sys) (n : Nat) (hp : s.provider = none) :
    ((run s [Act.evSetMax n, Act.callStart, Act.resolveOk]).provider).map
      (fun r => r.em.getMaxListeners) = some n := by
  have h1 : step s (Act.evSetMax n) = { s with buffer := s.buffer.setMax n } := by
    simp [step, Sys.setCurEm, Sys.getEmitter, hp]
  rw [run_cons, h1, construct_eq _ (by simp [hp])]
  have h2 := (migrate_maxL (⟨[], none⟩ : Emitter) (s.buffer.setMax n)).1
  simp [Emitter.setMax, Emitter.getMaxListeners] at h2
  simp only [Option.map_some]
  simp [Emitter.setMax, Emitter.getMaxListeners, h2]

theorem C7_maxListeners_carryover_witness :
    ((run init [Act.evSetMax 5, Act.callStart, Act.resolveOk]).provider).map
      (fun r => r.em.getMaxListeners) = some 5 :=
  C7_maxListeners_carryover init 5 rfl

/-- C10: every successful construction ends with an unconditional
`setMaxListeners(buffer.getMaxListeners())` on the resource: whatever the
resource's own max-listeners field held, after migration it is overwritten
with the buffer's effective value, and when no value was ever set on the
proxy the resource ends up explicitly set to the buffer's default 10. -/
theorem C10_maxListeners_overwrite (s : Sys) (hp : s.provider = none) :
    (∀ pr0 : Emitter, (migrate pr0 s.buffer).1.maxL = some s.buffer.getMaxListeners) ∧
    ((run s [Act.callStart, Act.resolveOk]).provider).map (fun r => r.em.maxL)
      = some (some s.buffer.getMaxListeners) ∧
    (s.buffer.maxL = none →
      ((run s [Act.callStart, Act.resolveOk]).provider).map (fun r => r.em.getMaxListeners)
        = some 10) := by
  refine ⟨fun pr0 => (migrate_maxL pr0 s.buffer).1, ?_, ?_⟩
  · rw [construct_eq s hp]
    simp [(migrate_maxL (⟨[], none⟩ : Emitter) s.buffer).1]
  · intro hm
    rw [construct_eq s hp]
    have h := (migrate_maxL (⟨[], none⟩ : Emitter) s.buffer).1
    simp [Emitter.getMaxListeners, h, hm]

theorem C10_maxListeners_overwrite_witness :
    (∀ pr0 : Emitter, (migrate pr0 init.buffer).1.maxL = some init.buffer.getMaxListeners) ∧
    ((run init [Act.callStart, Act.resolveOk]).provider).map (fun r => r.em.maxL)
      = some (some init.buffer.getMaxListeners) ∧
    (init.buffer.maxL = none →
      ((run init [Act.callStart, Act.resolveOk]).provider).map (fun r => r.em.getMaxListeners)
        = some 10) :=
  C10_maxListeners_overwrite init rfl

/-- C9: the counterexample.  With two factory invocations in flight (both
remote calls started before either resolved), the first resolution assigns
the provider field to resource 1; the second resolution, whose assignment is
not re-guarded, then reassigns the already-assigned field to resource 2. -/
theorem C9_provider_reassigned :
    ((run init [Act.callStart, Act.callStart, Act.resolveOk]).provider).map Resource.rid
      = some 1 ∧
    ((run init [Act.callStart, Act.callStart, Act.resolveOk, Act.resolveOk]).provider).map
      Resource.rid = some 2 := by decide

/-- C9 (amended): once the provider field is assigned and no further factory
invocation is still in flight — in particular whenever remote calls are
issued sequentially — no later operation reassigns or clears the field, the
factory is never invoked again, and every later operation sees that same
resource. -/
theorem C9_terminal_when_no_inflight (s : Sys) (r : Resource)
    (hp : s.provider = some r) (hq : s.pendingInits = 0) :
    ∀ tr : List Act,
      ((run s tr).provider).map Resource.rid = some r.rid ∧
      (run s tr).factoryCalls = s.factoryCalls ∧
      (run s tr).pendingInits = 0 := by
  intro tr
  refine foldl_inv
    (fun t => ((t.provider).map Resource.rid = some r.rid ∧
      t.factoryCalls = s.factoryCalls ∧ t.pendingInits = 0)) step ?_ tr s
    ⟨by rw [hp]; rfl, rfl, hq⟩
  intro t a ht
  obtain ⟨h1, h2, h3⟩ := ht
  have hsome : (t.provider).isSome = true := by
    cases hv : t.provider with
    | none => rw [hv] at h1; exact absurd h1 (by simp)
    | some _ => rfl
  cases a
  case callStart =>
    cases hv : t.provider with
    | none => rw [hv] at hsome; exact absurd hsome (by simp)
    | some r' =>
        have hstep : step t Act.callStart = t := by simp [step, initCheck, hv]
        rw [hstep]; exact ⟨h1, h2, h3⟩
  case resolveOk =>
    have hstep : step t Act.resolveOk = t := by simp [step, initResolveOk, h3]
    rw [hstep]; exact ⟨h1, h2, h3⟩
  case resolveErr =>
    have hstep : step t Act.resolveErr = t := by simp [step, initResolveErr, h3]
    rw [hstep]; exact ⟨h1, h2, h3⟩
  case evOn e cb =>
    have hf := setCurEm_frame t ((t.getEmitter).addL e ⟨t.nextId, cb, false, t.provider.isSome⟩ false)
    exact ⟨hf.2.2.2.2.1.trans h1, hf.1.trans h2, hf.2.1.trans h3⟩
  case evOnce e cb =>
    have hf := setCurEm_frame t ((t.getEmitter).addL e ⟨t.nextId, cb, true, t.provider.isSome⟩ false)
    exact ⟨hf.2.2.2.2.1.trans h1, hf.1.trans h2, hf.2.1.trans h3⟩
  case evPrepend e cb =>
    have hf := setCurEm_frame t ((t.getEmitter).addL e ⟨t.nextId, cb, false, t.provider.isSome⟩ true)
    exact ⟨hf.2.2.2.2.1.trans h1, hf.1.trans h2, hf.2.1.trans h3⟩
  case evPrependOnce e cb =>
    have hf := setCurEm_frame t ((t.getEmitter).addL e ⟨t.nextId, cb, true, t.provider.isSome⟩ true)
    exact ⟨hf.2.2.2.2.1.trans h1, hf.1.trans h2, hf.2.1.trans h3⟩
  case evRemove e cb =>
    have hf := setCurEm_frame t ((t.getEmitter).removeLastBy e (fun x => x.callback == cb))
    exact ⟨hf.2.2.2.2.1.trans h1, hf.1.trans h2, hf.2.1.trans h3⟩
  case evRemoveAll e =>
    have hf := setCurEm_frame t ((t.getEmitter).removeAllL e)
    exact ⟨hf.2.2.2.2.1.trans h1, hf.1.trans h2, hf.2.1.trans h3⟩
  case evSetMax n =>
    have hf := setCurEm_frame t ((t.getEmitter).setMax n)
    exact ⟨hf.2.2.2.2.1.trans h1, hf.1.trans h2, hf.2.1.trans h3⟩
  case evEmit e =>
    refine foldl_inv
      (fun u => ((u.provider).map Resource.rid = some r.rid ∧
        u.factoryCalls = s.factoryCalls ∧ u.pendingInits = 0))
      (fun u ent => fireOne u e ent) ?_ _ t ⟨h1, h2, h3⟩
    intro u ent hu
    have hf := fireOne_frame u e ent
    exact ⟨hf.2.2.2.2.1.trans hu.1, hf.1.trans hu.2.1, hf.2.1.trans hu.2.2⟩

theorem C9_terminal_when_no_inflight_witness :
    ((run (run init [Act.callStart, Act.resolveOk])
        [Act.evOn "a" 1, Act.callStart, Act.resolveOk]).provider).map Resource.rid
      = some (1 : Nat) ∧
    (run (run init [Act.callStart, Act.resolveOk])
        [Act.evOn "a" 1, Act.callStart, Act.resolveOk]).factoryCalls
      = (run init [Act.callStart, Act.resolveOk]).factoryCalls ∧
    (run (run init [Act.callStart, Act.resolveOk])
        [Act.evOn "a" 1, Act.callStart, Act.resolveOk]).pendingInits = 0 :=
  C9_terminal_when_no_inflight (run init [Act.callStart, Act.resolveOk])
    ⟨1, ⟨[], some 10⟩⟩ (by decide) (by decide) _

/-! Structural lemmas about the `_events` association list. -/

theorem getL_removeFrom_ne :
    ∀ (evs : List (EvName × List Entry)) (k k' : EvName) (f : List Entry → List Entry),
      k' ≠ k → getL (removeFrom evs k f) k' = getL evs k'
  | [], _, _, _, _ => rfl
  | q :: rest, k, k', f, h => by
      by_cases hq : q.1 = k
      · have hk' : ¬ q.1 = k' := fun hc => h (hc ▸ hq)
        have hkk' : ¬ k = k' := fun hc => h hc.symm
        by_cases he : (f q.2).isEmpty <;> simp [removeFrom, getL, hq, hk', hkk', he]
      · simp only [removeFrom, beq_iff_eq, hq, if_false]
        by_cases hk' : q.1 = k' <;>
          simp [getL, hk', getL_removeFrom_ne rest k k' f h]

theorem removeFrom_not_mem :
    ∀ (evs : List (EvName × List Entry)) (k : EvName) (f : List Entry → List Entry),
      k ∉ evs.map Prod.fst → removeFrom evs k f = evs
  | [], _, _, _ => rfl
  | q :: rest, k, f, h => by
      have hq : ¬ q.1 = k := fun hc => h (by simp [hc])
      have hrest : k ∉ rest.map Prod.fst := fun hc => h (by simp [hc])
      simp [removeFrom, hq, removeFrom_not_mem rest k f hrest]

theorem addTo_absent :
    ∀ (evs : List (EvName × List Entry)) (k : EvName) (ent : Entry) (front : Bool),
      k ∉ evs.map Prod.fst → addTo evs k ent front = evs ++ [(k, [ent])]
  | [], _, _, _, _ => rfl
  | q :: rest, k, ent, front, h => by
      have hq : ¬ q.1 = k := fun hc => h (by simp [hc])
      have hrest : k ∉ rest.map Prod.fst := fun hc => h (by simp [hc])
      simp [addTo, hq, addTo_absent rest k ent front hrest]

theorem addTo_snoc :
    ∀ (evs : List (EvName × List Entry)) (k : EvName) (acc : List Entry) (ent : Entry),
      k ∉ evs.map Prod.fst →
      addTo (evs ++ [(k, acc)]) k ent false = evs ++ [(k, acc ++ [ent])]
  | [], k, acc, ent, _ => by simp [addTo]
  | q :: rest, k, acc, ent, h => by
      have hq : ¬ q.1 = k := fun hc => h (by simp [hc])
      have hrest : k ∉ rest.map Prod.fst := fun hc => h (by simp [hc])
      simp [addTo, hq, addTo_snoc rest k acc ent hrest]

theorem fold_addTo_acc (k : EvName) :
    ∀ (l : List Entry) (evs : List (EvName × List Entry)) (acc : List Entry),
      k ∉ evs.map Prod.fst →
      l.foldl (fun es ent => addTo es k ent false) (evs ++ [(k, acc)]) = evs ++ [(k, acc ++ l)]
  | [], evs, acc, _ => by simp
  | x :: l, evs, acc, h => by
      rw [List.foldl_cons, addTo_snoc evs k acc x h, fold_addTo_acc k l evs (acc ++ [x]) h]
      simp

theorem fold_addTo_absent (k : EvName) (l : List Entry) (evs : List (EvName × List Entry))
    (h : k ∉ evs.map Prod.fst) (hl : l ≠ []) :
    l.foldl (fun es ent => addTo es k ent false) evs = evs ++ [(k, l)] := by
  cases l with
  | nil => exact absurd rfl hl
  | cons x l =>
      rw [List.foldl_cons, addTo_absent evs k x false h, fold_addTo_acc k l evs [x] h]
      simp

theorem fold_addL_split (e : EvName) :
    ∀ (l : List Entry) (m : Emitter),
      l.foldl (fun m ent => m.addL e ent false) m
        = ⟨l.foldl (fun es ent => addTo es e ent false) m.events, m.maxL⟩
  | [], _ => rfl
  | x :: l, m => by
      rw [List.foldl_cons, List.foldl_cons, fold_addL_split e l (m.addL e x false)]
      rfl

theorem fold_removeLastBy_split (e : EvName) :
    ∀ (l : List Entry) (m : Emitter),
      l.foldl (fun m ent => m.removeLastBy e (migPred ent)) m
        = ⟨l.foldl (fun es ent => removeFrom es e (eraseLastP (migPred ent))) m.events, m.maxL⟩
  | [], _ => rfl
  | x :: l, m => by
      rw [List.foldl_cons, List.foldl_cons,
        fold_removeLastBy_split e l (m.removeLastBy e (migPred x))]
      rfl

theorem fold_removeFrom_getL_ne (e k' : EvName) (h : k' ≠ e) :
    ∀ (l : List Entry) (evs : List (EvName × List Entry)),
      getL (l.foldl (fun es ent => removeFrom es e (eraseLastP (migPred ent))) evs) k'
        = getL evs k'
  | [], _ => rfl
  | x :: l, evs => by
      rw [List.foldl_cons, fold_removeFrom_getL_ne e k' h l _,
        getL_removeFrom_ne evs e k' _ h]

theorem migrateEvent_fst_events (pr bu : Emitter) (e : EvName)
    (hpr : e ∉ pr.events.map Prod.fst) (hne : getL bu.events e ≠ []) :
    (migrateEvent pr bu e).1.events = pr.events ++ [(e, getL bu.events e)] := by
  rw [migrateEvent_eq, fold_addL_split]
  show (getL bu.events e).foldl (fun es ent => addTo es e ent false) pr.events
      = pr.events ++ [(e, getL bu.events e)]
  exact fold_addTo_absent e _ pr.events hpr hne

theorem migrateEvent_snd_getL_ne (pr bu : Emitter) (e k' : EvName) (h : k' ≠ e) :
    getL ((migrateEvent pr bu e).2).events k' = getL bu.events k' := by
  rw [migrateEvent_eq, fold_removeLastBy_split]
  exact fold_removeFrom_getL_ne e k' h _ bu.events

theorem getL_ne_nil_of_mem :
    ∀ (evs : List (EvName × List Entry)), (∀ q ∈ evs, q.2 ≠ []) →
      ∀ k, k ∈ evs.map Prod.fst → getL evs k ≠ []
  | [], _, k, hk => by simp at hk
  | q :: rest, h, k, hk => by
      by_cases hq : q.1 = k
      · simpa [getL, hq] using h q (List.mem_cons_self q rest)
      · have hk' : k ∈ rest.map Prod.fst := by
          rw [List.map_cons] at hk
          rcases List.mem_cons.mp hk with h1 | h1
          · exact absurd h1.symm hq
          · exact h1
        simpa [getL, hq] using
          getL_ne_nil_of_mem rest (fun x hx => h x (List.mem_cons_of_mem q hx)) k hk'

theorem keys_map_getL :
    ∀ (evs : List (EvName × List Entry)), ((evs.map Prod.fst).Nodup) →
      (evs.map Prod.fst).map (fun k => (k, getL evs k)) = evs
  | [], _ => rfl
  | q :: rest, h => by
      rw [List.map_cons] at h
      have hnotin : q.1 ∉ rest.map Prod.fst := (List.nodup_cons.mp h).1
      have hrest : (rest.map Prod.fst).Nodup := (List.nodup_cons.mp h).2
      rw [List.map_cons, List.map_cons]
      have hhead : (q.1, getL (q :: rest) q.1) = q := by simp [getL]
      have htail : (rest.map Prod.fst).map (fun k => (k, getL (q :: rest) k))
          = (rest.map Prod.fst).map (fun k => (k, getL rest k)) := by
        refine List.map_congr_left ?_
        intro k hk
        have hne : ¬ q.1 = k := fun hc => hnotin (hc ▸ hk)
        simp [getL, hne]
      rw [hhead, htail, keys_map_getL rest hrest]

theorem loop_fst_aux :
    ∀ (ks : List EvName) (pr b : Emitter),
      ks.Nodup →
      (∀ k ∈ ks, k ∉ pr.events.map Prod.fst) →
      (∀ k ∈ ks, getL b.events k ≠ []) →
      ((ks.foldl (fun pb e => migrateEvent pb.1 pb.2 e) (pr, b)).1).events
        = pr.events ++ ks.map (fun k => (k, getL b.events k))
  | [], pr, b, _, _, _ => by simp
  | k :: ks, pr, b, hnd, hpr, hne => by
      have hk := hne k (List.mem_cons_self k ks)
      have hkpr := hpr k (List.mem_cons_self k ks)
      have hknotin : k ∉ ks := (List.nodup_cons.mp hnd).1
      have hfst := migrateEvent_fst_events pr b k hkpr hk
      have ih := loop_fst_aux ks (migrateEvent pr b k).1 (migrateEvent pr b k).2
        (List.nodup_cons.mp hnd).2
        (by
          intro k' hk'
          rw [hfst]
          simp only [List.map_append, List.mem_append]
          rintro (hc | hc)
          · exact hpr k' (List.mem_cons_of_mem k hk') hc
          · have : k' = k := by simpa using hc
            exact hknotin (this ▸ hk'))
        (by
          intro k' hk'
          have : k' ≠ k := fun hc => hknotin (hc ▸ hk')
          rw [migrateEvent_snd_getL_ne pr b k k' this]
          exact hne k' (List.mem_cons_of_mem k hk'))
      rw [List.foldl_cons,
        show migrateEvent (pr, b).1 (pr, b).2 k = migrateEvent pr b k from rfl]
      rw [show ((migrateEvent pr b k).1, (migrateEvent pr b k).2) = migrateEvent pr b k
        from rfl] at ih
      rw [ih, hfst]
      have hmap : ks.map (fun k' => (k', getL ((migrateEvent pr b k).2).events k'))
          = ks.map (fun k' => (k', getL b.events k')) := by
        refine List.map_congr_left ?_
        intro k' hk'
        have : k' ≠ k := fun hc => hknotin (hc ▸ hk')
        rw [migrateEvent_snd_getL_ne pr b k k' this]
      rw [hmap]
      simp

/-- After migration onto a fresh provider, the provider's listener table is
exactly the buffer's: same event keys in the same order, and for each event
the same slots (identity, callback, fire-once flag) in the same order. -/
theorem migrate_events_copy (bu : Emitter) (h : EmWF bu) :
    (migrate (⟨[], none⟩ : Emitter) bu).1.events = bu.events := by
  show ((bu.eventNames).foldl (fun pb e => migrateEvent pb.1 pb.2 e)
      (⟨[], none⟩, bu)).1.events = bu.events
  rw [loop_fst_aux bu.eventNames ⟨[], none⟩ bu h.1 (by simp)
    (fun k hk => getL_ne_nil_of_mem bu.events h.2 k hk)]
  show [] ++ (bu.events.map Prod.fst).map (fun k => (k, getL bu.events k)) = bu.events
  rw [List.nil_append]
  exact keys_map_getL bu.events h.1

/-! Preservation of the shape invariants by registrations. -/

theorem addTo_nonempty :
    ∀ (evs : List (EvName × List Entry)) (e : EvName) (ent : Entry) (front : Bool),
      (∀ q ∈ evs, q.2 ≠ []) → ∀ q ∈ addTo evs e ent front, q.2 ≠ []
  | [], e, ent, front, _, q, hq => by
      simp [addTo] at hq
      simp [hq]
  | p :: rest, e, ent, front, h, q, hq => by
      by_cases hp : p.1 = e
      · rw [show addTo (p :: rest) e ent front
            = (p.1, if front then ent :: p.2 else p.2 ++ [ent]) :: rest from by
            simp [addTo, hp]] at hq
        rcases List.mem_cons.mp hq with hq | hq
        · rw [hq]; cases front <;> simp
        · exact h q (List.mem_cons_of_mem p hq)
      · rw [show addTo (p :: rest) e ent front = p :: addTo rest e ent front from by
            simp [addTo, hp]] at hq
        rcases List.mem_cons.mp hq with hq | hq
        · exact hq ▸ h p (List.mem_cons_self p rest)
        · exact addTo_nonempty rest e ent front
            (fun x hx => h x (List.mem_cons_of_mem p hx)) q hq

theorem addTo_keys_of_mem :
    ∀ (evs : List (EvName × List Entry)) (e : EvName) (ent : Entry) (front : Bool),
      e ∈ evs.map Prod.fst → (addTo evs e ent front).map Prod.fst = evs.map Prod.fst
  | [], _, _, _, h => by simp at h
  | p :: rest, e, ent, front, h => by
      by_cases hp : p.1 = e
      · simp [addTo, hp]
      · have hrest : e ∈ rest.map Prod.fst := by
          rw [List.map_cons] at h
          rcases List.mem_cons.mp h with h1 | h1
          · exact absurd h1.symm hp
          · exact h1
        simp [addTo, hp, addTo_keys_of_mem rest e ent front hrest]

theorem EmWF_addL (m : Emitter) (e : EvName) (ent : Entry) (front : Bool)
    (h : EmWF m) : EmWF (m.addL e ent front) := by
  refine ⟨?_, addTo_nonempty m.events e ent front h.2⟩
  by_cases hm : e ∈ m.events.map Prod.fst
  · rw [show (m.addL e ent front).events = addTo m.events e ent front from rfl,
      addTo_keys_of_mem m.events e ent front hm]
    exact h.1
  · rw [show (m.addL e ent front).events = addTo m.events e ent front from rfl,
      addTo_absent m.events e ent front hm]
    simp only [List.map_append, List.map_cons, List.map_nil]
    rw [List.nodup_append_comm]
    show (e :: m.events.map Prod.fst).Nodup
    exact List.nodup_cons.mpr ⟨hm, h.1⟩

theorem regListener_none (s : Sys) (e : EvName) (cb : Nat) (onceFlag front : Bool)
    (hp : s.provider = none) :
    regListener s e cb onceFlag front =
      { s with buffer := s.buffer.addL e ⟨s.nextId, cb, onceFlag, false⟩ front,
               nextId := s.nextId + 1 } := by
  simp [regListener, Sys.setCurEm, Sys.getEmitter, hp]

theorem reg_step_pres (s : Sys) (a : Act) (hq : IsReg a = true) (hp : s.provider = none)
    (hw : EmWF s.buffer) :
    (step s a).provider = none ∧ EmWF (step s a).buffer ∧
    (step s a).factoryCalls = s.factoryCalls ∧ (step s a).pendingInits = s.pendingInits := by
  cases a <;> simp only [IsReg, Bool.false_eq_true] at hq
  case evOn e cb =>
    rw [show step s (Act.evOn e cb) = regListener s e cb false false from rfl,
      regListener_none s e cb false false hp]
    exact ⟨hp, EmWF_addL s.buffer e _ false hw, rfl, rfl⟩
  case evOnce e cb =>
    rw [show step s (Act.evOnce e cb) = regListener s e cb true false from rfl,
      regListener_none s e cb true false hp]
    exact ⟨hp, EmWF_addL s.buffer e _ false hw, rfl, rfl⟩
  case evPrepend e cb =>
    rw [show step s (Act.evPrepend e cb) = regListener s e cb false true from rfl,
      regListener_none s e cb false true hp]
    exact ⟨hp, EmWF_addL s.buffer e _ true hw, rfl, rfl⟩
  case evPrependOnce e cb =>
    rw [show step s (Act.evPrependOnce e cb) = regListener s e cb true true from rfl,
      regListener_none s e cb true true hp]
    exact ⟨hp, EmWF_addL s.buffer e _ true hw, rfl, rfl⟩

/-- C2: for every sequence of listener registrations (persistent, fire-once,
and at-front variants) made on the proxy before the first successful
construction, the listener table the proxy presents after construction (now
the provider's) is exactly the table it presented before (the buffer's):
same event names in the same order, and per event the same slots — identical
callback identity, identical fire-once/persistent nature, identical relative
order. -/
theorem C2_listener_preservation (tr : List Act) (h : ∀ a ∈ tr, IsReg a = true) :
    ((run (run init tr) [Act.callStart, Act.resolveOk]).getEmitter).events
      = ((run init tr).getEmitter).events ∧
    ∀ e : EvName,
      ((run (run init tr) [Act.callStart, Act.resolveOk]).getEmitter).rawListeners e
        = ((run init tr).getEmitter).rawListeners e := by
  have hinv : (run init tr).provider = none ∧ EmWF (run init tr).buffer := by
    have := foldl_inv_mem (fun t => t.provider = none ∧ EmWF t.buffer)
      (fun a => IsReg a = true) step
      (fun t a hQ hP => ⟨(reg_step_pres t a hQ hP.1 hP.2).1, (reg_step_pres t a hQ hP.1 hP.2).2.1⟩)
      tr h init ⟨rfl, by decide⟩
    exact this
  obtain ⟨hpn, hwf⟩ := hinv
  have hev : ((run (run init tr) [Act.callStart, Act.resolveOk]).getEmitter).events
      = ((run init tr).getEmitter).events := by
    rw [construct_eq _ hpn]
    show (migrate (⟨[], none⟩ : Emitter) (run init tr).buffer).1.events
      = ((run init tr).getEmitter).events
    rw [migrate_events_copy _ hwf]
    simp [Sys.getEmitter, hpn]
  exact ⟨hev, fun e => by rw [Emitter.rawListeners, Emitter.rawListeners, hev]⟩

theorem C2_listener_preservation_witness :
    ((run (run init [Act.evOn "connect" 1, Act.evOnce "data" 2, Act.evPrependOnce "connect" 3])
        [Act.callStart, Act.resolveOk]).getEmitter).events
      = ((run init [Act.evOn "connect" 1, Act.evOnce "data" 2,
          Act.evPrependOnce "connect" 3]).getEmitter).events :=
  (C2_listener_preservation
    [Act.evOn "connect" 1, Act.evOnce "data" 2, Act.evPrependOnce "connect" 3]
    (by decide)).1

/-! Construction failure leaves the proxy unchanged except for the factory
invocation count. -/

theorem cs_rerr_eq (t : Sys) (hp : t.provider = none) :
    run t [Act.callStart, Act.resolveErr] = { t with factoryCalls := t.factoryCalls + 1 } := by
  cases t with
  | mk bu pv pi fc cn rc fi fl ni =>
      cases hp
      simp [run, step, initCheck, initResolveErr]

theorem eqcore_reg (t t' : Sys) (a : Act) (hq : IsReg a = true)
    (hb : t.buffer = t'.buffer) (hp : t.provider = none) (hp' : t'.provider = none)
    (hn : t.nextId = t'.nextId) :
    (step t a).buffer = (step t' a).buffer ∧ (step t a).provider = none ∧
    (step t' a).provider = none ∧ (step t a).nextId = (step t' a).nextId := by
  cases a <;> simp only [IsReg, Bool.false_eq_true] at hq
  all_goals
    simp only [step]
    rw [regListener_none _ _ _ _ _ hp, regListener_none _ _ _ _ _ hp']
    exact ⟨by simp [hb, hn], hp, hp', by simp [hn]⟩

theorem run_reg_core :
    ∀ (ra : List Act), (∀ a ∈ ra, IsReg a = true) →
    ∀ (t t' : Sys), t.buffer = t'.buffer → t.provider = none → t'.provider = none →
      t.nextId = t'.nextId →
      ((run t ra).buffer = (run t' ra).buffer ∧ (run t ra).provider = none ∧
       (run t' ra).provider = none ∧ (run t ra).nextId = (run t' ra).nextId)
  | [], _, t, t', hb, hp, hp', hn => ⟨hb, hp, hp', hn⟩
  | a :: ra, h, t, t', hb, hp, hp', hn => by
      have hstep := eqcore_reg t t' a (h a (List.mem_cons_self a ra)) hb hp hp' hn
      exact run_reg_core ra (fun x hx => h x (List.mem_cons_of_mem a hx)) (step t a) (step t' a)
        hstep.1 hstep.2.1 hstep.2.2.1 hstep.2.2.2

/-- C4: if the factory rejects on a first attempt, the proxy is back exactly
where it was apart from the invocation count: no provider (state is again
uninitialized), the buffer — and with it every listener registered before the
attempt — untouched; a later remote call invokes the factory a second time,
and the eventually-successful migration installs on the provider exactly the
listeners registered before and between the two attempts. -/
theorem C4_failure_recovery (s : Sys) (ra1 ra2 : List Act)
    (hp : s.provider = none) (hw : EmWF s.buffer)
    (h1 : ∀ a ∈ ra1, IsReg a = true) (h2 : ∀ a ∈ ra2, IsReg a = true) :
    (run s (ra1 ++ [Act.callStart, Act.resolveErr])).provider = none ∧
    (run s (ra1 ++ [Act.callStart, Act.resolveErr])).buffer = (run s ra1).buffer ∧
    (run s (ra1 ++ [Act.callStart, Act.resolveErr])).factoryCalls = s.factoryCalls + 1 ∧
    (run (run s (ra1 ++ [Act.callStart, Act.resolveErr]))
        (ra2 ++ [Act.callStart, Act.resolveOk])).factoryCalls = s.factoryCalls + 2 ∧
    providerEvents (run (run s (ra1 ++ [Act.callStart, Act.resolveErr]))
        (ra2 ++ [Act.callStart, Act.resolveOk]))
      = some ((run s (ra1 ++ ra2)).buffer.events) := by
  have hA := foldl_inv_mem
    (fun t => t.provider = none ∧ EmWF t.buffer ∧ t.factoryCalls = s.factoryCalls)
    (fun a => IsReg a = true) step
    (fun t a hQ hP => by
      obtain ⟨u1, u2, u3, _⟩ := reg_step_pres t a hQ hP.1 hP.2.1
      exact ⟨u1, u2, u3.trans hP.2.2⟩)
    ra1 h1 s ⟨hp, hw, rfl⟩
  obtain ⟨hA1, hA2, hA3⟩ := hA
  have hA3r : (run s ra1).factoryCalls = s.factoryCalls := hA3
  have hfail : run s (ra1 ++ [Act.callStart, Act.resolveErr])
      = { run s ra1 with factoryCalls := (run s ra1).factoryCalls + 1 } := by
    rw [run_append]
    exact cs_rerr_eq (run s ra1) hA1
  have hs1p : (run s (ra1 ++ [Act.callStart, Act.resolveErr])).provider = none := by
    rw [hfail]; exact hA1
  have hs1b : (run s (ra1 ++ [Act.callStart, Act.resolveErr])).buffer = (run s ra1).buffer := by
    rw [hfail]
  have hs1n : (run s (ra1 ++ [Act.callStart, Act.resolveErr])).nextId = (run s ra1).nextId := by
    rw [hfail]
  have hs1f : (run s (ra1 ++ [Act.callStart, Act.resolveErr])).factoryCalls
      = s.factoryCalls + 1 := by
    rw [hfail]
    show (run s ra1).factoryCalls + 1 = s.factoryCalls + 1
    rw [hA3r]
  have hcore := run_reg_core ra2 h2 (run s (ra1 ++ [Act.callStart, Act.resolveErr]))
    (run s ra1) hs1b hs1p hA1 hs1n
  obtain ⟨hc1, hc2, _, _⟩ := hcore
  have hB := foldl_inv_mem (fun t => t.provider = none ∧ EmWF t.buffer)
    (fun a => IsReg a = true) step
    (fun t a hQ hP => ⟨(reg_step_pres t a hQ hP.1 hP.2).1,
      (reg_step_pres t a hQ hP.1 hP.2).2.1⟩)
    ra2 h2 (run s ra1) ⟨hA1, hA2⟩
  have hF := foldl_inv_mem
    (fun t => t.provider = none ∧ EmWF t.buffer ∧ t.factoryCalls = s.factoryCalls + 1)
    (fun a => IsReg a = true) step
    (fun t a hQ hP => by
      obtain ⟨u1, u2, u3, _⟩ := reg_step_pres t a hQ hP.1 hP.2.1
      exact ⟨u1, u2, u3.trans hP.2.2⟩)
    ra2 h2 (run s (ra1 ++ [Act.callStart, Act.resolveErr]))
    ⟨hs1p, by rw [hs1b]; exact hA2, hs1f⟩
  have hBr : EmWF (run (run s ra1) ra2).buffer := hB.2
  have hFr : (run (run s (ra1 ++ [Act.callStart, Act.resolveErr])) ra2).factoryCalls
      = s.factoryCalls + 1 := hF.2.2
  have hcon := construct_eq (run (run s (ra1 ++ [Act.callStart, Act.resolveErr])) ra2) hc2
  refine ⟨hs1p, hs1b, hs1f, ?_, ?_⟩
  · rw [run_append, hcon]
    show (run (run s (ra1 ++ [Act.callStart, Act.resolveErr])) ra2).factoryCalls + 1
        = s.factoryCalls + 2
    rw [hFr]
  · rw [run_append, hcon]
    show some ((migrate (⟨[], none⟩ : Emitter)
        (run (run s (ra1 ++ [Act.callStart, Act.resolveErr])) ra2).buffer).1.events)
      = some ((run s (ra1 ++ ra2)).buffer.events)
    rw [migrate_events_copy _ (by rw [hc1]; exact hBr), hc1, ← run_append]

theorem C4_failure_recovery_witness :
    (run init ([Act.evOn "a" 1] ++ [Act.callStart, Act.resolveErr])).provider = none ∧
    (run init ([Act.evOn "a" 1] ++ [Act.callStart, Act.resolveErr])).buffer
      = (run init [Act.evOn "a" 1]).buffer ∧
    (run init ([Act.evOn "a" 1] ++ [Act.callStart, Act.resolveErr])).factoryCalls
      = init.factoryCalls + 1 ∧
    (run (run init ([Act.evOn "a" 1] ++ [Act.callStart, Act.resolveErr]))
        ([Act.evOnce "b" 2] ++ [Act.callStart, Act.resolveOk])).factoryCalls
      = init.factoryCalls + 2 ∧
    providerEvents (run (run init ([Act.evOn "a" 1] ++ [Act.callStart, Act.resolveErr]))
        ([Act.evOnce "b" 2] ++ [Act.callStart, Act.resolveOk]))
      = some ((run init ([Act.evOn "a" 1] ++ [Act.evOnce "b" 2])).buffer.events) :=
  C4_failure_recovery init [Act.evOn "a" 1] [Act.evOnce "b" 2] rfl (by decide)
    (by decide) (by decide)

/-! Structure of backward-scan removal. -/

theorem eraseLastP_id (p : Entry → Bool) :
    ∀ (l : List Entry), (∀ z ∈ l, p z = false) → eraseLastP p l = l
  | [], _ => rfl
  | x :: xs, h => by
      have hxs : xs.any p = false := by
        rw [List.any_eq_false]
        intro z hz
        simp [h z (List.mem_cons_of_mem x hz)]
      have hx := h x (List.mem_cons_self x xs)
      simp [eraseLastP, hxs, hx]

theorem eraseLastP_decomp (p : Entry → Bool) :
    ∀ (l : List Entry), l.any p = true →
      ∃ s y t, l = s ++ y :: t ∧ p y = true ∧ (∀ z ∈ t, p z = false) ∧
        eraseLastP p l = s ++ t
  | [], h => by simp at h
  | x :: xs, h => by
      by_cases hxs : xs.any p = true
      · obtain ⟨s, y, t, h1, h2, h3, h4⟩ := eraseLastP_decomp p xs hxs
        refine ⟨x :: s, y, t, by rw [h1]; rfl, h2, h3, ?_⟩
        rw [show eraseLastP p (x :: xs) = x :: eraseLastP p xs from by simp [eraseLastP, hxs],
          h4]
        rfl
      · have hx : p x = true := by
          rcases List.any_eq_true.mp h with ⟨z, hz, hpz⟩
          rcases List.mem_cons.mp hz with h1 | h1
          · exact h1 ▸ hpz
          · exact absurd (List.any_eq_true.mpr ⟨z, h1, hpz⟩) hxs
        have ht : ∀ z ∈ xs, p z = false := by
          intro z hz
          rcases hb : p z with _ | _
          · rfl
          · exact absurd (List.any_eq_true.mpr ⟨z, hz, hb⟩) hxs
        refine ⟨[], x, xs, rfl, hx, ht, ?_⟩
        simp [eraseLastP, hxs, hx]

/-- Core of the migration-drains-the-buffer argument: processing a listener
list against itself — removing each slot by identity for wrappers and by
callback for plain slots, always the last match, exactly as the migration
loop's `removeListener` calls do — empties the list, provided slot
identities are distinct and no callback occurs both persistently and
fire-once. -/
theorem drain_aux (L : List Entry) (hnd : (L.map Entry.eid).Nodup) (hmix : NoMixL L) :
    ∀ (todo cur : List Entry), List.Sublist cur L →
      cur.filter (fun x => x.once) = todo.filter (fun x => x.once) →
      (∀ c : Nat, cur.countP (fun x => !x.once && (x.callback == c))
        = todo.countP (fun x => !x.once && (x.callback == c))) →
      todo.foldl (fun cu ent => eraseLastP (migPred ent) cu) cur = []
  | [], cur, _, hfil, hcnt => by
      cases cur with
      | nil => rfl
      | cons x xs =>
          by_cases hx : x.once = true
          · have hmem : x ∈ (x :: xs).filter (fun x => x.once) :=
              List.mem_filter.mpr ⟨List.mem_cons_self x xs, hx⟩
            rw [hfil] at hmem
            simp at hmem
          · have hc := hcnt x.callback
            rw [List.countP_cons] at hc
            simp [hx] at hc
  | ent :: todo', cur, hsub, hfil, hcnt => by
      have hndc : (cur.map Entry.eid).Nodup := hnd.sublist (hsub.map Entry.eid)
      by_cases honce : ent.once = true
      · -- a wrapper is removed by its own identity
        have hentf : ent ∈ (ent :: todo').filter (fun x => x.once) := by
          rw [List.filter_cons_of_pos honce]
          exact List.mem_cons_self _ _
        rw [← hfil] at hentf
        have hentc : ent ∈ cur := (List.mem_filter.mp hentf).1
        have hany : cur.any (migPred ent) = true :=
          List.any_eq_true.mpr ⟨ent, hentc, by simp [migPred, honce]⟩
        obtain ⟨a, y, t, hdec, hpy, _, herase⟩ := eraseLastP_decomp (migPred ent) cur hany
        have hymem : y ∈ cur := by
          rw [hdec]
          exact List.mem_append_right a (List.mem_cons_self y t)
        have hyeid : y.eid = ent.eid := by
          simp [migPred, honce] at hpy
          exact hpy
        have hyent : y = ent := List.inj_on_of_nodup_map hndc hymem hentc hyeid
        have hna : ∀ z ∈ a, migPred ent z = false := by
          intro z hz
          rcases hb : migPred ent z with _ | _
          · rfl
          · exfalso
            have hzeid : z.eid = ent.eid := by
              simp [migPred, honce] at hb
              exact hb
            have hN : ((a ++ y :: t).map Entry.eid).Nodup := by
              rw [← hdec]; exact hndc
            rw [List.map_append] at hN
            rcases List.nodup_append.mp hN with ⟨_, _, hdisj⟩
            have h1 : y.eid ∈ a.map Entry.eid := by
              rw [show y.eid = z.eid from by rw [hyeid, hzeid]]
              exact List.mem_map_of_mem Entry.eid hz
            exact hdisj h1 (by simp)
        have hfil2 : a.filter (fun x => x.once) ++ y :: t.filter (fun x => x.once)
            = ent :: todo'.filter (fun x => x.once) := by
          have := hfil
          rw [hdec, List.filter_append, List.filter_cons_of_pos (by rw [hyent]; exact honce),
            List.filter_cons_of_pos honce] at this
          exact this
        have ha_nil : a.filter (fun x => x.once) = [] := by
          cases hcF : a.filter (fun x => x.once) with
          | nil => rfl
          | cons h0 hs =>
              rw [hcF, List.cons_append] at hfil2
              have hh0 : h0 = ent := (List.cons.injEq _ _ _ _).mp hfil2 |>.1
              have hh0a : h0 ∈ a := List.mem_of_mem_filter (l := a) (by rw [hcF]; exact List.mem_cons_self h0 hs)
              have hm0 : migPred ent h0 = true := by simp [migPred, honce, hh0]
              rw [hna h0 hh0a] at hm0
              exact absurd hm0 (by simp)
        rw [ha_nil, List.nil_append] at hfil2
        have ht_fil : t.filter (fun x => x.once) = todo'.filter (fun x => x.once) :=
          ((List.cons.injEq _ _ _ _).mp hfil2).2
        have hsub' : List.Sublist (a ++ t) L :=
          List.Sublist.trans ((List.sublist_cons_self y t).append_left a) (hdec ▸ hsub)
        have hfil' : (a ++ t).filter (fun x => x.once) = todo'.filter (fun x => x.once) := by
          rw [List.filter_append, ha_nil, List.nil_append, ht_fil]
        have hcnt' : ∀ c : Nat, (a ++ t).countP (fun x => !x.once && (x.callback == c))
            = todo'.countP (fun x => !x.once && (x.callback == c)) := by
          intro c
          have hC := hcnt c
          rw [hdec, List.countP_append, List.countP_cons, List.countP_cons] at hC
          have hy0 : (!y.once && (y.callback == c)) = false := by
            rw [hyent]; simp [honce]
          have he0 : (!ent.once && (ent.callback == c)) = false := by simp [honce]
          rw [hy0, he0] at hC
          simp only [Bool.false_eq_true, if_false, Nat.add_zero] at hC
          rw [List.countP_append]
          omega
        rw [List.foldl_cons]
        show todo'.foldl (fun cu ent => eraseLastP (migPred ent) cu)
            (eraseLastP (migPred ent) cur) = []
        rw [herase]
        exact drain_aux L hnd hmix todo' (a ++ t) hsub' hfil' hcnt'
      · -- a plain slot removes the last slot with the same callback
        have honce' : ent.once = false := by
          rcases hb : ent.once with _ | _
          · rfl
          · exact absurd hb honce
        have hpos : 0 < cur.countP (fun x => !x.once && (x.callback == ent.callback)) := by
          rw [hcnt ent.callback, List.countP_cons]
          have hpe : (!ent.once && (ent.callback == ent.callback)) = true := by simp [honce']
          rw [hpe]
          simp
        obtain ⟨z, hz, hpz⟩ := List.countP_pos_iff.mp hpos
        have hz2 : z.once = false ∧ z.callback = ent.callback := by
          rcases ho : z.once with _ | _
          · rw [ho] at hpz
            exact ⟨rfl, by simpa using hpz⟩
          · rw [ho] at hpz
            simp at hpz
        have hmatch : ∀ w ∈ cur, migPred ent w = true →
            w.once = false ∧ w.callback = ent.callback := by
          intro w hw hmw
          have hwcb : w.callback = ent.callback := by
            simp [migPred, honce'] at hmw
            exact hmw
          have hwonce : w.once = z.once :=
            hmix w (hsub.subset hw) z (hsub.subset hz) (by rw [hwcb, hz2.2])
          exact ⟨by rw [hwonce, hz2.1], hwcb⟩
        have hany : cur.any (migPred ent) = true :=
          List.any_eq_true.mpr ⟨z, hz, by simp [migPred, honce', hz2.2]⟩
        obtain ⟨a, y, t, hdec, hpy, _, herase⟩ := eraseLastP_decomp (migPred ent) cur hany
        have hymem : y ∈ cur := by
          rw [hdec]
          exact List.mem_append_right a (List.mem_cons_self y t)
        obtain ⟨hyonce, hycb⟩ := hmatch y hymem hpy
        have hsub' : List.Sublist (a ++ t) L :=
          List.Sublist.trans ((List.sublist_cons_self y t).append_left a) (hdec ▸ hsub)
        have hfil' : (a ++ t).filter (fun x => x.once) = todo'.filter (fun x => x.once) := by
          have hfc : cur.filter (fun x => x.once) = (a ++ t).filter (fun x => x.once) := by
            rw [hdec, List.filter_append, List.filter_append,
              List.filter_cons_of_neg (by simp [hyonce])]
          rw [← hfc, hfil, List.filter_cons_of_neg (by simp [honce'])]
        have hcnt' : ∀ c : Nat, (a ++ t).countP (fun x => !x.once && (x.callback == c))
            = todo'.countP (fun x => !x.once && (x.callback == c)) := by
          intro c
          have hC := hcnt c
          rw [hdec, List.countP_append, List.countP_cons, List.countP_cons] at hC
          by_cases hcc : c = ent.callback
          · have hyp : (!y.once && (y.callback == c)) = true := by
              simp [hyonce, hycb, hcc]
            have hep : (!ent.once && (ent.callback == c)) = true := by
              simp [honce', hcc]
            rw [hyp, hep] at hC
            simp only [eq_self_iff_true, if_true] at hC
            rw [List.countP_append]
            omega
          · have hne : (ent.callback == c) = false := by
              rw [beq_eq_false_iff_ne]
              exact fun h => hcc h.symm
            have hyp : (!y.once && (y.callback == c)) = false := by
              rw [hycb, hne]; simp
            have hep : (!ent.once && (ent.callback == c)) = false := by
              rw [hne]; simp
            rw [hyp, hep] at hC
            simp only [Bool.false_eq_true, if_false, Nat.add_zero] at hC
            rw [List.countP_append]
            omega
        rw [List.foldl_cons]
        show todo'.foldl (fun cu ent => eraseLastP (migPred ent) cu)
            (eraseLastP (migPred ent) cur) = []
        rw [herase]
        exact drain_aux L hnd hmix todo' (a ++ t) hsub' hfil' hcnt'

/-! Lifting the drain to the emitter table. -/

theorem fold_removeFrom_consIf (k : EvName) (rest : List (EvName × List Entry))
    (hk : k ∉ rest.map Prod.fst) :
    ∀ (todo cur : List Entry),
      todo.foldl (fun es ent => removeFrom es k (eraseLastP (migPred ent))) (consIf k cur rest)
        = consIf k (todo.foldl (fun cu ent => eraseLastP (migPred ent) cu) cur) rest
  | [], _ => rfl
  | ent :: todo, cur => by
      rw [List.foldl_cons, List.foldl_cons]
      by_cases hc : cur = []
      · subst hc
        rw [show consIf k ([] : List Entry) rest = rest from by simp [consIf]]
        rw [removeFrom_not_mem rest k _ hk]
        have hrec := fold_removeFrom_consIf k rest hk todo []
        rw [show consIf k ([] : List Entry) rest = rest from by simp [consIf]] at hrec
        exact hrec
      · rw [show consIf k cur rest = (k, cur) :: rest from by
          simp [consIf, List.isEmpty_iff, hc]]
        rw [show removeFrom ((k, cur) :: rest) k (eraseLastP (migPred ent))
            = consIf k (eraseLastP (migPred ent) cur) rest from by
          simp [removeFrom, consIf]]
        exact fold_removeFrom_consIf k rest hk todo (eraseLastP (migPred ent) cur)

theorem loop_snd_drain :
    ∀ (evs : List (EvName × List Entry)) (pr : Emitter) (mb : Option Nat),
      ((evs.map Prod.fst).Nodup) → (∀ q ∈ evs, q.2 ≠ []) →
      (∀ q ∈ evs, ((q.2.map Entry.eid).Nodup)) → (∀ q ∈ evs, NoMixL q.2) →
      (((evs.map Prod.fst).foldl (fun pb e => migrateEvent pb.1 pb.2 e)
        (pr, ⟨evs, mb⟩)).2).events = []
  | [], _, _, _, _, _, _ => rfl
  | (k, l) :: rest, pr, mb, hnd, hne, hid, hmx => by
      have hkrest : k ∉ rest.map Prod.fst := by
        rw [List.map_cons] at hnd
        exact (List.nodup_cons.mp hnd).1
      have hlne : l ≠ [] := hne (k, l) (List.mem_cons_self _ _)
      have hdrain : l.foldl (fun cu ent => eraseLastP (migPred ent) cu) l = [] :=
        drain_aux l (hid (k, l) (List.mem_cons_self _ _)) (hmx (k, l) (List.mem_cons_self _ _))
          l l (List.Sublist.refl l) rfl (fun _ => rfl)
      have hevents : l.foldl (fun es ent => removeFrom es k (eraseLastP (migPred ent)))
          ((k, l) :: rest) = rest := by
        rw [show ((k, l) :: rest) = consIf k l rest from by
          simp [consIf, List.isEmpty_iff, hlne]]
        rw [fold_removeFrom_consIf k rest hkrest l l, hdrain]
        simp [consIf]
      have hsnd : (migrateEvent pr ⟨(k, l) :: rest, mb⟩ k).2 = (⟨rest, mb⟩ : Emitter) := by
        rw [migrateEvent_eq]
        show (getL ((k, l) :: rest) k).foldl
            (fun m ent => m.removeLastBy k (migPred ent)) ⟨(k, l) :: rest, mb⟩
          = (⟨rest, mb⟩ : Emitter)
        rw [show getL ((k, l) :: rest) k = l from by simp [getL], fold_removeLastBy_split]
        show (⟨l.foldl (fun es ent => removeFrom es k (eraseLastP (migPred ent)))
            ((k, l) :: rest), mb⟩ : Emitter) = (⟨rest, mb⟩ : Emitter)
        rw [hevents]
      rw [List.map_cons, List.foldl_cons,
        show migrateEvent (pr, (⟨(k, l) :: rest, mb⟩ : Emitter)).1
            (pr, (⟨(k, l) :: rest, mb⟩ : Emitter)).2 k
          = migrateEvent pr ⟨(k, l) :: rest, mb⟩ k from rfl]
      have ih := loop_snd_drain rest (migrateEvent pr ⟨(k, l) :: rest, mb⟩ k).1 mb
        (by rw [List.map_cons] at hnd; exact (List.nodup_cons.mp hnd).2)
        (fun q hq => hne q (List.mem_cons_of_mem _ hq))
        (fun q hq => hid q (List.mem_cons_of_mem _ hq))
        (fun q hq => hmx q (List.mem_cons_of_mem _ hq))
      rw [show ((migrateEvent pr ⟨(k, l) :: rest, mb⟩ k).1, (⟨rest, mb⟩ : Emitter))
          = ((migrateEvent pr ⟨(k, l) :: rest, mb⟩ k).1,
             (migrateEvent pr ⟨(k, l) :: rest, mb⟩ k).2) from by rw [hsnd]] at ih
      rw [show ((migrateEvent pr ⟨(k, l) :: rest, mb⟩ k).1,
          (migrateEvent pr ⟨(k, l) :: rest, mb⟩ k).2)
          = migrateEvent pr ⟨(k, l) :: rest, mb⟩ k from rfl] at ih
      exact ih

theorem migrate_snd_drain (bu : Emitter) (h : EmWF bu) (hid : EidNodup bu) (hmx : NoMix bu) :
    (migrate (⟨[], none⟩ : Emitter) bu).2.events = [] := by
  show (((bu.eventNames).foldl (fun pb e => migrateEvent pb.1 pb.2 e)
      (⟨[], none⟩, bu)).2).events = []
  exact loop_snd_drain bu.events ⟨[], none⟩ bu.maxL h.1 h.2 hid hmx

/-! Once the provider exists and the buffer is empty, nothing ever writes the
buffer again. -/

theorem fireOne_post (u : Sys) (e : EvName) (ent : Entry)
    (hb : u.buffer.events = []) (hp : (u.provider).isSome = true) :
    (fireOne u e ent).buffer.events = [] ∧ ((fireOne u e ent).provider).isSome = true := by
  cases hv : u.provider with
  | none => rw [hv] at hp; exact absurd hp (by simp)
  | some r =>
      simp only [fireOne, removeFromTarget]
      split
      · split
        · exact ⟨hb, hp⟩
        · split
          · rw [hv]
            exact ⟨hb, rfl⟩
          · refine ⟨?_, hp⟩
            show removeFrom u.buffer.events e (eraseLastP _) = []
            rw [hb]
            rfl
      · exact ⟨hb, hp⟩

theorem post_inv_step (t : Sys) (a : Act) (hb : t.buffer.events = [])
    (hp : (t.provider).isSome = true) :
    (step t a).buffer.events = [] ∧ ((step t a).provider).isSome = true := by
  cases hv : t.provider with
  | none => rw [hv] at hp; exact absurd hp (by simp)
  | some r =>
      cases a
      case callStart =>
        rw [show step t Act.callStart = t from by simp [step, initCheck, hv]]
        exact ⟨hb, hp⟩
      case resolveErr =>
        rw [show step t Act.resolveErr = initResolveErr t from rfl]
        unfold initResolveErr
        split
        · exact ⟨hb, hp⟩
        · exact ⟨hb, hp⟩
      case resolveOk =>
        rw [show step t Act.resolveOk = initResolveOk t from rfl]
        unfold initResolveOk
        split
        · exact ⟨hb, hp⟩
        · have hev : t.buffer.eventNames = [] := by
            show t.buffer.events.map Prod.fst = []
            rw [hb]
            rfl
          have hm : (migrate (⟨[], none⟩ : Emitter) t.buffer).2 = t.buffer := by
            unfold migrate
            rw [hev]
            rfl
          refine ⟨?_, rfl⟩
          show (migrate (⟨[], none⟩ : Emitter) t.buffer).2.events = []
          rw [hm, hb]
      case evOn e cb => simp [step, regListener, Sys.setCurEm, Sys.getEmitter, hv, hb]
      case evOnce e cb => simp [step, regListener, Sys.setCurEm, Sys.getEmitter, hv, hb]
      case evPrepend e cb => simp [step, regListener, Sys.setCurEm, Sys.getEmitter, hv, hb]
      case evPrependOnce e cb => simp [step, regListener, Sys.setCurEm, Sys.getEmitter, hv, hb]
      case evRemove e cb => simp [step, Sys.setCurEm, Sys.getEmitter, hv, hb]
      case evRemoveAll e => simp [step, Sys.setCurEm, Sys.getEmitter, hv, hb]
      case evSetMax n => simp [step, Sys.setCurEm, Sys.getEmitter, hv, hb]
      case evEmit e =>
        exact foldl_inv (fun u => u.buffer.events = [] ∧ (u.provider).isSome = true)
          (fun u ent => fireOne u e ent)
          (fun u ent hu => fireOne_post u e ent hu.1 hu.2) _ t ⟨hb, hp⟩

/-- C8: the counterexample to full drainage.  Register the same callback
persistently and then fire-once on one event and construct: the migration's
`removeListener(event, rawListener)` call for the persistent slot matches the
later once-wrapper (Node unwraps `.listener`), removes the wrapper instead,
and the wrapper's own removal then misses — the persistent slot survives in
the buffer, while the provider correctly received both slots. -/
theorem C8_buffer_not_drained :
    (run init [Act.evOn "a" 7, Act.evOnce "a" 7, Act.callStart, Act.resolveOk]).buffer.events
      = [("a", [⟨0, 7, false, false⟩])] ∧
    providerEvents (run init [Act.evOn "a" 7, Act.evOnce "a" 7, Act.callStart, Act.resolveOk])
      = some [("a", [⟨0, 7, false, false⟩, ⟨1, 7, true, false⟩])] := by decide

/-- C8 (amended): after a successful construction the buffer is fully drained
provided no callback was registered both persistently and fire-once for the
same event; and — with or without that proviso for what remains — from then
on the buffer is never written or consulted again: every subsequent
operation routes to the provider (`_getEmitter` returns the provider exactly
when it is set), and the buffer stays empty forever. -/
theorem C8_drained_no_mix (s : Sys) (hp : s.provider = none) (hw : EmWF s.buffer)
    (hid : EidNodup s.buffer) (hmx : NoMix s.buffer) :
    (run s [Act.callStart, Act.resolveOk]).buffer.events = [] ∧
    ∀ tr : List Act,
      (run (run s [Act.callStart, Act.resolveOk]) tr).buffer.events = [] ∧
      ((run (run s [Act.callStart, Act.resolveOk]) tr).provider).isSome = true := by
  have hbase : (run s [Act.callStart, Act.resolveOk]).buffer.events = [] ∧
      ((run s [Act.callStart, Act.resolveOk]).provider).isSome = true := by
    rw [construct_eq s hp]
    exact ⟨migrate_snd_drain s.buffer hw hid hmx, rfl⟩
  exact ⟨hbase.1, fun tr =>
    foldl_inv (fun u => u.buffer.events = [] ∧ (u.provider).isSome = true) step
      (fun u a hu => post_inv_step u a hu.1 hu.2) tr _ hbase⟩

theorem C8_drained_no_mix_witness :
    (run (run init [Act.evOn "a" 1, Act.evOnce "a" 2]) [Act.callStart, Act.resolveOk]).buffer.events
      = [] :=
  (C8_drained_no_mix (run init [Act.evOn "a" 1, Act.evOnce "a" 2]) (by decide) (by decide)
    (by decide) (by decide)).1

/-! Ghost-log facts: the fired set guards each wrapper so it can deliver at
most one invocation, no matter where the wrapper is registered. -/

theorem removeFromTarget_ghost (s : Sys) (ent : Entry) (e : EvName) :
    (removeFromTarget s ent e).firedLog = s.firedLog ∧
    (removeFromTarget s ent e).firedIds = s.firedIds := by
  unfold removeFromTarget
  split
  · cases hv : s.provider <;> simp [hv]
  · exact ⟨rfl, rfl⟩

theorem onceEids_append_plain (log : List FireRec) (r : FireRec) (h : r.once = false) :
    onceEids (log ++ [r]) = onceEids log := by
  unfold onceEids
  rw [List.filter_append, List.filter_cons_of_neg (by simp [h]), List.filter_nil,
    List.append_nil]

theorem onceEids_append_once (log : List FireRec) (r : FireRec) (h : r.once = true) :
    onceEids (log ++ [r]) = onceEids log ++ [r.eid] := by
  unfold onceEids
  rw [List.filter_append, List.filter_cons_of_pos h, List.filter_nil, List.map_append]
  rfl

theorem fireOne_log (u : Sys) (e : EvName) (ent : Entry)
    (h1 : (onceEids u.firedLog).Nodup)
    (h2 : ∀ i ∈ onceEids u.firedLog, i ∈ u.firedIds) :
    ((onceEids (fireOne u e ent).firedLog).Nodup ∧
     ∀ i ∈ onceEids (fireOne u e ent).firedLog, i ∈ (fireOne u e ent).firedIds) := by
  unfold fireOne
  split
  · split
    · exact ⟨h1, h2⟩
    · rename_i hmem
      rw [(removeFromTarget_ghost _ ent e).1, (removeFromTarget_ghost _ ent e).2]
      show (onceEids (u.firedLog ++ [⟨ent.eid, true, e, ent.callback⟩])).Nodup ∧
        ∀ i ∈ onceEids (u.firedLog ++ [⟨ent.eid, true, e, ent.callback⟩]),
          i ∈ ent.eid :: u.firedIds
      rw [onceEids_append_once _ _ rfl]
      constructor
      · rw [List.nodup_append_comm]
        show (ent.eid :: onceEids u.firedLog).Nodup
        exact List.nodup_cons.mpr ⟨fun hc => hmem (h2 _ hc), h1⟩
      · intro i hi
        rcases List.mem_append.mp hi with hi | hi
        · exact List.mem_cons_of_mem _ (h2 i hi)
        · rw [show i = ent.eid from by simpa using hi]
          exact List.mem_cons_self _ _
  · show (onceEids (u.firedLog ++ [⟨ent.eid, false, e, ent.callback⟩])).Nodup ∧
      ∀ i ∈ onceEids (u.firedLog ++ [⟨ent.eid, false, e, ent.callback⟩]), i ∈ u.firedIds
    rw [onceEids_append_plain _ _ rfl]
    exact ⟨h1, h2⟩

theorem step_ghost_frame (t : Sys) (a : Act) (h : ∀ e, a ≠ Act.evEmit e) :
    (step t a).firedLog = t.firedLog ∧ (step t a).firedIds = t.firedIds := by
  cases a
  case callStart => cases hv : t.provider <;> simp [step, initCheck, hv]
  case resolveOk =>
    rw [show step t Act.resolveOk = initResolveOk t from rfl]
    unfold initResolveOk
    split
    · exact ⟨rfl, rfl⟩
    · exact ⟨rfl, rfl⟩
  case resolveErr =>
    rw [show step t Act.resolveErr = initResolveErr t from rfl]
    unfold initResolveErr
    split
    · exact ⟨rfl, rfl⟩
    · exact ⟨rfl, rfl⟩
  case evOn e cb => cases hv : t.provider <;>
    simp [step, regListener, Sys.setCurEm, Sys.getEmitter, hv]
  case evOnce e cb => cases hv : t.provider <;>
    simp [step, regListener, Sys.setCurEm, Sys.getEmitter, hv]
  case evPrepend e cb => cases hv : t.provider <;>
    simp [step, regListener, Sys.setCurEm, Sys.getEmitter, hv]
  case evPrependOnce e cb => cases hv : t.provider <;>
    simp [step, regListener, Sys.setCurEm, Sys.getEmitter, hv]
  case evRemove e cb => cases hv : t.provider <;>
    simp [step, Sys.setCurEm, Sys.getEmitter, hv]
  case evRemoveAll e => cases hv : t.provider <;>
    simp [step, Sys.setCurEm, Sys.getEmitter, hv]
  case evSetMax n => cases hv : t.provider <;>
    simp [step, Sys.setCurEm, Sys.getEmitter, hv]
  case evEmit e => exact absurd rfl (h e)

theorem step_log_inv (t : Sys) (a : Act)
    (h1 : (onceEids t.firedLog).Nodup)
    (h2 : ∀ i ∈ onceEids t.firedLog, i ∈ t.firedIds) :
    ((onceEids (step t a).firedLog).Nodup ∧
     ∀ i ∈ onceEids (step t a).firedLog, i ∈ (step t a).firedIds) := by
  cases a
  case evEmit e =>
    exact foldl_inv
      (fun u => (onceEids u.firedLog).Nodup ∧ ∀ i ∈ onceEids u.firedLog, i ∈ u.firedIds)
      (fun u ent => fireOne u e ent) (fun u ent hu => fireOne_log u e ent hu.1 hu.2)
      _ t ⟨h1, h2⟩
  all_goals
    first
    | (rw [(step_ghost_frame t _ (by intro e h; cases h)).1,
        (step_ghost_frame t _ (by intro e h; cases h)).2]
       exact ⟨h1, h2⟩)

theorem filter_eid_le_one :
    ∀ (l : List FireRec), ((l.map FireRec.eid).Nodup) →
      ∀ i : Nat, (l.filter (fun r => r.eid == i)).length ≤ 1
  | [], _, _ => by simp
  | r :: l, h, i => by
      rw [List.map_cons] at h
      have hr : r.eid ∉ l.map FireRec.eid := (List.nodup_cons.mp h).1
      have hl : (l.map FireRec.eid).Nodup := (List.nodup_cons.mp h).2
      by_cases hri : r.eid = i
      · rw [List.filter_cons_of_pos (by simp [hri])]
        have hnil : l.filter (fun r => r.eid == i) = [] := by
          rw [List.filter_eq_nil_iff]
          intro z hz
          simp only [beq_iff_eq]
          intro hzi
          exact hr (by rw [hri, ← hzi]; exact List.mem_map_of_mem _ hz)
        rw [hnil]
        simp
      · rw [List.filter_cons_of_neg (by simp [hri])]
        exact filter_eid_le_one l hl i

/-- C3: no fire-once slot ever delivers twice.  In every trace of the system,
each once-wrapper identity appears at most once among the fire-once entries
of the invocation log — even though migration re-registers the wrapper on
the provider persistently, its shared fired flag blocks a second delivery.
Concretely: a listener registered with `once` before construction, migrated,
and then emitted twice on the provider, is invoked exactly once. -/
theorem C3_once_fires_at_most_once :
    (∀ (tr : List Act) (i : Nat),
      (((run init tr).firedLog.filter (fun r => r.once)).filter
        (fun r => r.eid == i)).length ≤ 1) ∧
    ((run init [Act.evOnce "message" 7, Act.callStart, Act.resolveOk,
        Act.evEmit "message", Act.evEmit "message"]).firedLog.filter
      (fun r => r.callback == 7)).length = 1 := by
  constructor
  · intro tr i
    have hinv := foldl_inv
      (fun u => (onceEids u.firedLog).Nodup ∧ ∀ j ∈ onceEids u.firedLog, j ∈ u.firedIds)
      step (fun u a hu => step_log_inv u a hu.1 hu.2) tr init
      ⟨by decide, by decide⟩
    exact filter_eid_le_one _ hinv.1 i
  · decide

end LazyInit
